import Mathlib

/-!
Verification development for the Memory Scramble board ADT
(`lab3-multiplayer-game/src/board.ts`).

The TypeScript `Board` class is shallowly embedded as a Lean structure
together with pure step functions, one per lock-protected critical
section of the source:

* `look`                     — `Board.look` (lines 234-260);
* `flipOnce` / `flipAttempt` — `Board.flip` (lines 289-408): the
  bounds check, the finalize-previous-turn section, and the one
  locked flip-attempt section (the `while` loop only re-runs
  `flipAttempt`, so the atomic sections are exactly these);
* `finishPreviousForPlayer`  — `finishPreviousForPlayer_locked` (411-482);
* `wakeNextWaiter`           — `wakeNextWaiter_locked` (508-532);
* `mapCompute` / `mapApply`  — `Board.map` (562-584) compute and apply
  phases; `mapOp` composes them with an arbitrary board at apply time
  to model interleavings;
* `watchRegister`            — `Board.watch` (600-608) enqueue section;
* `parseFromFile`            — `Board.parseFromFile` (619-638), with
  the file contents passed as a string.

Modelling conventions:
* Cells are a total function `Pos → Cell`; positions outside the grid
  carry the inert cell `⟨none, false, none⟩` (the source arrays are
  only indexed in bounds).
* The `players` map is a total function `String → List Pos` defaulting
  to `[]`; the source's lazy `players.set(playerId, {controlled: []})`
  is the identity under this view, since every read goes through
  `players.get` after that initialization.
* `Math.random()` waiter selection is an oracle parameter `k : Nat`,
  reduced modulo the queue length, so theorems quantify over every
  possible random choice.
* Resolving a deferred is recorded in the `wokenWaiters` event log;
  `notifyWatchers` drains the watcher queue and bumps the `changes`
  event counter (one increment per emitted change event).
* JavaScript truthiness of `controlledBy[r][c]` is `controller ≠ none`
  (player ids are non-empty strings by the rep invariant).
-/

namespace MS

/-- Grid position `(row, column)`. -/
abbrev Pos := Nat × Nat

/-- One board cell: `card` is the label (or `none` when removed),
`faceUp` the visibility bit, `controller` the controlling player id. -/
structure Cell where
  card : Option String
  faceUp : Bool
  controller : Option String
deriving DecidableEq

/-- A queued waiter: the deferred's identity token and the waiting
player's id (`{ deferred, pid }` in the source). -/
structure Waiter where
  wid : Nat
  pid : String
deriving DecidableEq

/-- The Memory Scramble board state. -/
structure Board where
  rows : Nat
  cols : Nat
  cells : Pos → Cell
  players : String → List Pos
  waiters : Pos → List Waiter
  watchers : List Nat
  wokenWaiters : List (Pos × Waiter)
  changes : Nat

/-- Model of `notifyWatchers_locked`: resolve (drain) every queued
watcher and record one change event. -/
def notifyWatchers (b : Board) : Board :=
  { b with watchers := [], changes := b.changes + 1 }

/-- Removal of the element at index `i` (the `splice(idx, 1)` in
`wakeNextWaiter_locked`). -/
def removeIdx (l : List Waiter) (i : Nat) : List Waiter :=
  l.take i ++ l.drop (i + 1)

/-- Model of `wakeNextWaiter_locked(r, c)`: dequeue one waiter (chosen
by the random oracle `k`), and either resolve it as-is when the card
has been removed, or reserve ownership (face-up, controller := pid),
emit a change event, and resolve it. -/
def wakeNextWaiter (k : Nat) (p : Pos) (b : Board) : Board :=
  let q := b.waiters p
  match q.get? (k % q.length) with
  | none => b
  | some item =>
    let b1 : Board :=
      { b with
        waiters := fun r => if r = p then removeIdx q (k % q.length) else b.waiters r,
        wokenWaiters := b.wokenWaiters ++ [(p, item)] }
    if (b.cells p).card = none then b1
    else
      notifyWatchers
        { b1 with
          cells := fun r =>
            if r = p then
              { card := (b.cells p).card, faceUp := true, controller := some item.pid }
            else b1.cells r }

/-- Model of `removePositionFromAllPlayers_locked`. -/
def removePosFromAllPlayers (p : Pos) (b : Board) : Board :=
  { b with players := fun pid => (b.players pid).filter (fun q => q ≠ p) }

/-- Functional update of a single cell. -/
def setCell (b : Board) (p : Pos) (cell : Cell) : Board :=
  { b with cells := fun q => if q = p then cell else b.cells q }

/-- Functional update of a single player record. -/
def setPlayer (b : Board) (pid : String) (l : List Pos) : Board :=
  { b with players := fun q => if q = pid then l else b.players q }

/-- Body of the relinquish loop of the mismatch finalization
(board.ts lines 442-447): give up control of a position the player
still owns, leaving it face up. -/
def relinquishIfOwned (pid : String) (acc : Board) (p : Pos) : Board :=
  if (acc.cells p).card ≠ none ∧ (acc.cells p).controller = some pid then
    setCell acc p { acc.cells p with controller := none }
  else acc

/-- Body of the face-down loop of the mismatch finalization (board.ts
lines 451-459): turn a still-present, face-up, uncontrolled card face
down, scrub stale references to it, and record that something changed. -/
def faceDownIfFree (acc : Board × Bool) (p : Pos) : Board × Bool :=
  if (acc.1.cells p).card ≠ none ∧ (acc.1.cells p).faceUp = true ∧
      (acc.1.cells p).controller = none then
    (removePosFromAllPlayers p (setCell acc.1 p { acc.1.cells p with faceUp := false }), true)
  else acc

/-- Model of `finishPreviousForPlayer_locked` (board.ts lines 411-482):
finalize the player's previous turn. `k1`, `k2` are the random oracles
for the up-to-two waiter wakes. -/
def finishPreviousForPlayer (k1 k2 : Nat) (pid : String) (b : Board) : Board :=
  match b.players pid with
  | [p1, p2] =>
    let lab1 := (b.cells p1).card
    let lab2 := (b.cells p2).card
    if lab1 ≠ none ∧ lab2 ≠ none ∧ lab1 = lab2 then
      -- matched pair: remove both cells from the board
      let b1 := setCell b p1 ⟨none, false, none⟩
      let b2 := setCell b1 p2 ⟨none, false, none⟩
      let b3 := setPlayer b2 pid []
      let b4 := removePosFromAllPlayers p1 b3
      let b5 := removePosFromAllPlayers p2 b4
      let b6 := notifyWatchers b5
      let b7 := wakeNextWaiter k1 p1 b6
      wakeNextWaiter k2 p2 b7
    else
      -- mismatch finalization: relinquish, then face-down where possible
      let b1 := relinquishIfOwned pid (relinquishIfOwned pid b p1) p2
      let b2 := setPlayer b1 pid []
      let bc := faceDownIfFree (faceDownIfFree (b2, false) p1) p2
      let b3 := if bc.2 then notifyWatchers bc.1 else bc.1
      let b4 := wakeNextWaiter k1 p1 b3
      wakeNextWaiter k2 p2 b4
  | [p] =>
    -- finalize a single previously-controlled card only if control has
    -- already been relinquished (controller is absent)
    if (b.cells p).card ≠ none ∧ (b.cells p).controller = none then
      let b1 := setPlayer b pid []
      let b2 :=
        if (b1.cells p).faceUp then
          notifyWatchers
            (removePosFromAllPlayers p (setCell b1 p { b1.cells p with faceUp := false }))
        else b1
      wakeNextWaiter k1 p b2
    else b
  | _ => b

/-- Outcome of one locked flip-attempt section (the tagged shapes
`ok` / `fail` / `wait` / `retry` returned from inside `lock.run`). -/
inductive FlipErr where
  | invalidCoordinates
  | noCardHere
  | targetControlled
deriving DecidableEq

/-- Result of one flip step. -/
inductive FlipOutcome where
  | ok
  | fail (e : FlipErr)
  | wait (w : Waiter)
  | retry
deriving DecidableEq

/-- Model of the single locked flip-attempt section of `Board.flip`
(board.ts lines 309-388). `kw` is the random oracle for the mismatch
wake; `wid` is the token of the deferred created when waiting. -/
def flipAttempt (kw wid : Nat) (pid : String) (r c : Nat) (b : Board) :
    FlipOutcome × Board :=
  let pos : Pos := (r, c)
  let card := (b.cells pos).card
  let owner := (b.cells pos).controller
  match b.players pid with
  | [] =>
    -- first card
    if card = none then (.fail .noCardHere, b)
    else if owner ≠ none ∧ owner ≠ some pid then
      -- must wait: enqueue a waiter
      let w : Waiter := ⟨wid, pid⟩
      (.wait w,
        { b with waiters := fun q => if q = pos then b.waiters q ++ [w] else b.waiters q })
    else
      -- take control and turn face up
      let b1 := setCell b pos { card := card, faceUp := true, controller := some pid }
      let b2 := setPlayer b1 pid [pos]
      (.ok, notifyWatchers b2)
  | [p0] =>
    -- second card attempt
    if card = none then
      let b1 := setCell b p0 { b.cells p0 with controller := none }
      let b2 := setPlayer b1 pid [p0]
      (.fail .noCardHere, b2)
    else if (b.cells pos).faceUp = true ∧ (b.cells pos).controller ≠ none then
      -- 2-B: target face up and controlled by a player
      let b1 := setCell b p0 { b.cells p0 with controller := none }
      let b2 := setPlayer b1 pid [p0]
      (.fail .targetControlled, b2)
    else
      let b1 := setCell b pos { card := card, faceUp := true, controller := some pid }
      let lab0 := (b1.cells p0).card
      let lab1 := (b1.cells pos).card
      if lab0 ≠ none ∧ lab1 ≠ none ∧ lab0 = lab1 then
        -- match: keep control of both for finalization
        let b2 := setPlayer b1 pid [p0, pos]
        (.ok, notifyWatchers b2)
      else
        -- mismatch: relinquish both (leave face up), wake first-card waiter
        let b2 := setCell b1 p0 { b1.cells p0 with controller := none }
        let b3 := setCell b2 pos { b2.cells pos with controller := none }
        let b4 := setPlayer b3 pid [p0, pos]
        let b5 := notifyWatchers b4
        (.ok, wakeNextWaiter kw p0 b5)
  | _ => (.retry, b)

/-- Model of one pass through `Board.flip` (board.ts lines 289-408) up
to the first settled outcome: lazy player-record creation (identity
under the total-function view), the bounds check, the locked
finalize-previous-turn section, then one locked flip attempt. -/
def flipOnce (k1 k2 kw wid : Nat) (pid : String) (r c : Nat) (b : Board) :
    FlipOutcome × Board :=
  if r < b.rows ∧ c < b.cols then
    flipAttempt kw wid pid r c (finishPreviousForPlayer k1 k2 pid b)
  else (.fail .invalidCoordinates, b)

/-- Text of one snapshot line for a cell, from `playerId`'s perspective
(the body of the double loop in `Board.look`, lines 243-255). -/
def cellLine (pid : String) (cell : Cell) : String :=
  match cell.card with
  | none => "none"
  | some card =>
    if cell.faceUp = false then "down"
    else if cell.controller = some pid then "my " ++ card
    else "up " ++ card

/-- JavaScript `Array.join('\n')` on the collected lines. -/
def joinLines : List String → String
  | [] => ""
  | [l] => l
  | l :: ls => l ++ "\n" ++ joinLines ls

/-- The list of snapshot lines built by `Board.look`: the dimension
header, then one line per cell in row-major order. -/
def lookLines (pid : String) (b : Board) : List String :=
  (toString b.rows ++ "x" ++ toString b.cols) ::
    (List.range b.rows).flatMap (fun r =>
      (List.range b.cols).map (fun c => cellLine pid (b.cells (r, c))))

/-- Model of `Board.look` (board.ts lines 234-260): a pure observation;
`lines.join('\n') + '\n'`. -/
def look (pid : String) (b : Board) : String :=
  joinLines (lookLines pid b) ++ "\n"

/-- Model of the compute phase of `Board.map` (board.ts lines 565-574):
collect `(r, c, f card)` for every present card, row-major. The async
`f` is modelled by its pure result function. -/
def mapCompute (f : String → String) (b : Board) : List (Pos × String) :=
  (List.range b.rows).flatMap (fun r =>
    (List.range b.cols).filterMap (fun c =>
      match (b.cells (r, c)).card with
      | some card => some ((r, c), f card)
      | none => none))

/-- Body of the apply loop of `Board.map` (board.ts line 578):
overwrite one listed cell's label. -/
def applyRep (acc : Board) (rep : Pos × String) : Board :=
  setCell acc rep.1 { acc.cells rep.1 with card := some rep.2 }

/-- Model of the apply phase of `Board.map` (board.ts lines 576-582):
overwrite each listed cell's label, then emit one change event. -/
def mapApply (reps : List (Pos × String)) (b : Board) : Board :=
  notifyWatchers (reps.foldl applyRep b)

/-- Whole `Board.map` run: the compute phase reads `bc` (the board as
seen while `f` is being awaited, lock not held) and the apply phase
runs on `ba` (the board when the lock is re-taken), so `bc ≠ ba`
models mutations that interleaved with the compute phase. -/
def mapOp (f : String → String) (bc ba : Board) : Board :=
  mapApply (mapCompute f bc) ba

/-- Model of the locked enqueue section of `Board.watch` (board.ts
lines 600-608): push a fresh one-shot on the watcher queue. -/
def watchRegister (wid : Nat) (b : Board) : Board :=
  { b with watchers := b.watchers ++ [wid] }

/-- ASCII whitespace test used by the line-trimming model (JavaScript
`String.prototype.trim`, restricted to the whitespace characters that
occur in board files). -/
def isWS (c : Char) : Bool :=
  c = ' ' || c = '\t' || c = '\r' || c = '\n'

/-- Trim of leading and trailing whitespace on a character list. -/
def trimChars (l : List Char) : List Char :=
  ((l.dropWhile isWS).reverse.dropWhile isWS).reverse

/-- Split a character list at every `'\n'` (JavaScript
`text.split(/\r?\n/)`, first step: split on the newline itself). -/
def splitNL : List Char → List (List Char)
  | [] => [[]]
  | ch :: rest =>
    if ch = '\n' then [] :: splitNL rest
    else
      match splitNL rest with
      | [] => [[ch]]
      | h :: t => (ch :: h) :: t

/-- Second step of `text.split(/\r?\n/)`: a `'\r'` immediately before
the `'\n'` is consumed by the separator. -/
def stripCR (l : List Char) : List Char :=
  if l.getLast? = some '\r' then l.dropLast else l

/-- The lines of the file text, with `\r\n` and `\n` both accepted as
line breaks. -/
def splitLines (text : String) : List (List Char) :=
  (splitNL text.toList).map stripCR

/-- The non-blank lines of the file text (`.filter(l => l.trim().length > 0)`). -/
def nonBlankLines (text : String) : List (List Char) :=
  (splitLines text).filter (fun l => trimChars l ≠ [])

/-- Numeric value of a digit string (the effect of `parseInt(m, 10)`
on a match of `\d+`). -/
def natOfDigits (l : List Char) : Nat :=
  l.foldl (fun n ch => n * 10 + (ch.toNat - 48)) 0

/-- Model of matching the header regex `^(\d+)x(\d+)$` and converting
both groups with `parseInt`: one or more digits, the letter `x`, one
or more digits. -/
def parseHeader (l : List Char) : Option (Nat × Nat) :=
  let a := l.takeWhile Char.isDigit
  match l.dropWhile Char.isDigit with
  | y :: rest =>
    if y = 'x' ∧ a ≠ [] ∧ rest ≠ [] ∧ rest.all Char.isDigit then
      some (natOfDigits a, natOfDigits rest)
    else none
  | [] => none

/-- The data `Board.parseFromFile` extracts from a well-formed file:
dimensions and the flat row-major label list handed to the `Board`
constructor. -/
structure ParsedBoard where
  rows : Nat
  cols : Nat
  cards : List String
deriving DecidableEq

/-- Header-and-cards step of `Board.parseFromFile` (board.ts lines
627-637), applied to the non-blank lines. -/
def parseBody (first : List Char) (cardLines : List (List Char)) :
    Except String ParsedBoard :=
  match parseHeader (trimChars first) with
  | none => .error "invalid board header"
  | some (rows, cols) =>
    if cardLines.length = rows * cols then
      .ok ⟨rows, cols, cardLines.map (fun l => (trimChars l).asString)⟩
    else .error "wrong number of card lines"

/-- Model of `Board.parseFromFile` (board.ts lines 619-638) applied to
the file's text: split lines, drop blank ones, parse the header from
the first, require exactly `rows * cols` remaining lines, and take
their trims as the labels. -/
def parseFromFile (text : String) : Except String ParsedBoard :=
  match nonBlankLines text with
  | [] => .error "empty board file"
  | first :: cardLines => parseBody first cardLines

/-- Model of the `Board` constructor (board.ts lines 132-158) on a
label list of the right length: cards laid out row-major, all face
down, uncontrolled, with no players, waiters, or watchers. -/
def boardFromCards (rows cols : Nat) (cards : List String) : Board :=
  { rows := rows
    cols := cols
    cells := fun p =>
      if p.1 < rows ∧ p.2 < cols then
        match cards.get? (p.1 * cols + p.2) with
        | some l => ⟨some l, false, none⟩
        | none => ⟨none, false, none⟩
      else ⟨none, false, none⟩
    players := fun _ => []
    waiters := fun _ => []
    watchers := []
    wokenWaiters := []
    changes := 0 }

/-- Concrete one-player board used to witness the flip theorems: a 1x2
grid, `alice` holds the face-up `A` at `(0,0)`, a `B` lies face-down at
`(0,1)`, and `bob` waits on `(0,0)`. -/
def wBoard : Board :=
  { rows := 1, cols := 2
    cells := fun p =>
      if p = ((0 : Nat), (0 : Nat)) then ⟨some "A", true, some "alice"⟩
      else if p = ((0 : Nat), (1 : Nat)) then ⟨some "B", false, none⟩
      else ⟨none, false, none⟩
    players := fun q => if q = "alice" then [(0, 0)] else []
    waiters := fun p => if p = ((0 : Nat), (0 : Nat)) then [⟨7, "bob"⟩] else []
    watchers := [3]
    wokenWaiters := []
    changes := 0 }

/-- Concrete board refuting C5 as stated: `pat`'s single recorded cell
`(0,0)` is now controlled by the other player `quinn` (ownership was
transferred), so the claim would have Step A finalize it. -/
def bC5 : Board :=
  { rows := 1, cols := 1
    cells := fun p =>
      if p = ((0 : Nat), (0 : Nat)) then ⟨some "A", true, some "quinn"⟩
      else ⟨none, false, none⟩
    players := fun q => if q = "pat" then [(0, 0)] else []
    waiters := fun _ => []
    watchers := []
    wokenWaiters := []
    changes := 0 }

/-- Board witnessing the amended C5: `pat`'s recorded `(0,0)` is
face-up, present, and uncontrolled, with `bob` waiting there. -/
def bW5 : Board :=
  { rows := 1, cols := 1
    cells := fun p =>
      if p = ((0 : Nat), (0 : Nat)) then ⟨some "A", true, none⟩
      else ⟨none, false, none⟩
    players := fun q => if q = "pat" then [(0, 0)] else []
    waiters := fun p => if p = ((0 : Nat), (0 : Nat)) then [⟨5, "bob"⟩] else []
    watchers := []
    wokenWaiters := []
    changes := 0 }

/-- The board state built by the mismatch branch of the second-card
flip (board.ts lines 371-378), just before the immediate wake of the
first card's waiter: target taken face-up, both controllers
relinquished, the player's record set to both positions, change
emitted. -/
def mismatchMid (pid : String) (p0 pos : Pos) (b : Board) : Board :=
  notifyWatchers (setPlayer
    (setCell
      (setCell (setCell b pos ⟨(b.cells pos).card, true, some pid⟩) p0
        { (setCell b pos ⟨(b.cells pos).card, true, some pid⟩).cells p0 with
            controller := none })
      pos
      { (setCell (setCell b pos ⟨(b.cells pos).card, true, some pid⟩) p0
          { (setCell b pos ⟨(b.cells pos).card, true, some pid⟩).cells p0 with
              controller := none }).cells pos with controller := none })
    pid [p0, pos])

/-- Concrete board refuting C1 as stated: `pat` has a matched pending
pair awaiting Step A, and then flips out of range. -/
def bC1 : Board :=
  { rows := 1, cols := 2
    cells := fun p =>
      if p = ((0 : Nat), (0 : Nat)) then ⟨some "A", true, some "pat"⟩
      else if p = ((0 : Nat), (1 : Nat)) then ⟨some "A", true, some "pat"⟩
      else ⟨none, false, none⟩
    players := fun q => if q = "pat" then [(0, 0), (0, 1)] else []
    waiters := fun _ => []
    watchers := []
    wokenWaiters := []
    changes := 0 }

/-! ### The absent-cell representation invariant (rep invariant item
"if cards[r][c] === null, then faceUp false and controlledBy null",
checked by `checkRep`, board.ts lines 184-188). -/
/-- Every cell whose label is absent is face-down and uncontrolled. -/
def absentInv (b : Board) : Prop :=
  ∀ p : Pos, (b.cells p).card = none →
    (b.cells p).faceUp = false ∧ (b.cells p).controller = none

/-! ### The snapshot format (C8) -/
/-- One snapshot line as the specification words it: `"none"` if the
label is absent, `"down"` if present and not face-up, `"my <label>"`
if face-up and controlled by the observer, `"up <label>"` if face-up
and controlled by another player or by nobody. -/
def specCellLine (pid : String) (cell : Cell) : String :=
  match cell.card, cell.faceUp with
  | none, _ => "none"
  | some _, false => "down"
  | some l, true => if cell.controller = some pid then "my " ++ l else "up " ++ l

/-- A sequence of lines each terminated by a newline (the spec's "one
line per cell ... followed by a trailing newline"). -/
def terminatedConcat : List String → String
  | [] => ""
  | l :: ls => l ++ "\n" ++ terminatedConcat ls

/-- The snapshot as the specification describes it: the dimension
header line, then one line per cell in row-major order, every line
newline-terminated. -/
def specSnapshot (pid : String) (b : Board) : String :=
  terminatedConcat ((toString b.rows ++ "x" ++ toString b.cols) ::
    (List.range b.rows).flatMap (fun r =>
      (List.range b.cols).map (fun c => specCellLine pid (b.cells (r, c)))))

/-! ### The apply phase of `map` (C4) -/
/-- The last replacement value listed for position `q` (the value the
apply loop leaves in the cell), if any. -/
def findLastRep (reps : List (Pos × String)) (q : Pos) : Option String :=
  reps.foldl (fun acc rep => if rep.1 = q then some rep.2 else acc) none

/-- Inner loop of the compute phase: the replacements collected from
row `rr`, columns `0..m`. -/
def computeCols (f : String → String) (b0 : Board) (rr m : Nat) : List (Pos × String) :=
  (List.range m).filterMap (fun c =>
    match (b0.cells (rr, c)).card with
    | some card => some ((rr, c), f card)
    | none => none)

/-- Outer loop of the compute phase: the replacements collected from
rows `0..n`. -/
def computeRows (f : String → String) (b0 : Board) (n : Nat) : List (Pos × String) :=
  (List.range n).flatMap (fun r => computeCols f b0 r b0.cols)

/-- Compute-time board for the C4 counterexample: a 1x1 board holding
an `A`. -/
def bMap0 : Board := boardFromCards 1 1 ["A"]

/-- Apply-time board for the C4 counterexample: the same 1x1 board
after the `A` was removed (say by a match finalization interleaved
with the compute phase). -/
def bMap1 : Board :=
  { rows := 1, cols := 1
    cells := fun _ => ⟨none, false, none⟩
    players := fun _ => []
    waiters := fun _ => []
    watchers := []
    wokenWaiters := []
    changes := 5 }

/-- The spec's well-formedness condition for a board file, C9 as
amended: the first non-blank line trims to `"<rows>x<cols>"` with
(possibly zero) natural numbers and the remaining non-blank lines are
exactly `rows × cols` non-empty card labels (their trims). -/
def specWellFormed (text : String) (pb : ParsedBoard) : Prop :=
  ∃ first rest, nonBlankLines text = first :: rest ∧
    (∃ a b : List Char, trimChars first = a ++ 'x' :: b ∧ a ≠ [] ∧
      (∀ ch ∈ a, ch.isDigit = true) ∧ b ≠ [] ∧ (∀ ch ∈ b, ch.isDigit = true) ∧
      pb.rows = natOfDigits a ∧ pb.cols = natOfDigits b) ∧
    rest.length = pb.rows * pb.cols ∧
    pb.cards = rest.map (fun l => (trimChars l).asString) ∧
    (∀ s ∈ pb.cards, s ≠ "")

/-- The claim's well-formedness condition, which additionally requires
the dimensions to be positive integers. -/
def specWellFormedPos (text : String) (pb : ParsedBoard) : Prop :=
  specWellFormed text pb ∧ 0 < pb.rows ∧ 0 < pb.cols

/-! ### Projection lemmas for the state updaters -/
@[simp] theorem setCell_cells (b : Board) (p : Pos) (cell : Cell) (q : Pos) :
    (setCell b p cell).cells q = if q = p then cell else b.cells q := rfl

@[simp] theorem setCell_players (b : Board) (p : Pos) (cell : Cell) :
    (setCell b p cell).players = b.players := rfl

@[simp] theorem setCell_rows (b : Board) (p : Pos) (cell : Cell) :
    (setCell b p cell).rows = b.rows := rfl

@[simp] theorem setCell_cols (b : Board) (p : Pos) (cell : Cell) :
    (setCell b p cell).cols = b.cols := rfl

@[simp] theorem setCell_waiters (b : Board) (p : Pos) (cell : Cell) :
    (setCell b p cell).waiters = b.waiters := rfl

@[simp] theorem setCell_watchers (b : Board) (p : Pos) (cell : Cell) :
    (setCell b p cell).watchers = b.watchers := rfl

@[simp] theorem setCell_wokenWaiters (b : Board) (p : Pos) (cell : Cell) :
    (setCell b p cell).wokenWaiters = b.wokenWaiters := rfl

@[simp] theorem setCell_changes (b : Board) (p : Pos) (cell : Cell) :
    (setCell b p cell).changes = b.changes := rfl

@[simp] theorem setPlayer_players (b : Board) (pid : String) (l : List Pos) (q : String) :
    (setPlayer b pid l).players q = if q = pid then l else b.players q := rfl

@[simp] theorem setPlayer_cells (b : Board) (pid : String) (l : List Pos) :
    (setPlayer b pid l).cells = b.cells := rfl

@[simp] theorem setPlayer_rows (b : Board) (pid : String) (l : List Pos) :
    (setPlayer b pid l).rows = b.rows := rfl

@[simp] theorem setPlayer_cols (b : Board) (pid : String) (l : List Pos) :
    (setPlayer b pid l).cols = b.cols := rfl

@[simp] theorem setPlayer_waiters (b : Board) (pid : String) (l : List Pos) :
    (setPlayer b pid l).waiters = b.waiters := rfl

@[simp] theorem setPlayer_watchers (b : Board) (pid : String) (l : List Pos) :
    (setPlayer b pid l).watchers = b.watchers := rfl

@[simp] theorem setPlayer_wokenWaiters (b : Board) (pid : String) (l : List Pos) :
    (setPlayer b pid l).wokenWaiters = b.wokenWaiters := rfl

@[simp] theorem setPlayer_changes (b : Board) (pid : String) (l : List Pos) :
    (setPlayer b pid l).changes = b.changes := rfl

@[simp] theorem notifyWatchers_cells (b : Board) :
    (notifyWatchers b).cells = b.cells := rfl

@[simp] theorem notifyWatchers_players (b : Board) :
    (notifyWatchers b).players = b.players := rfl

@[simp] theorem notifyWatchers_rows (b : Board) : (notifyWatchers b).rows = b.rows := rfl

@[simp] theorem notifyWatchers_cols (b : Board) : (notifyWatchers b).cols = b.cols := rfl

@[simp] theorem notifyWatchers_waiters (b : Board) :
    (notifyWatchers b).waiters = b.waiters := rfl

@[simp] theorem notifyWatchers_wokenWaiters (b : Board) :
    (notifyWatchers b).wokenWaiters = b.wokenWaiters := rfl

@[simp] theorem notifyWatchers_changes (b : Board) :
    (notifyWatchers b).changes = b.changes + 1 := rfl

@[simp] theorem removePosFromAllPlayers_cells (p : Pos) (b : Board) :
    (removePosFromAllPlayers p b).cells = b.cells := rfl

@[simp] theorem removePosFromAllPlayers_players (p : Pos) (b : Board) (pid : String) :
    (removePosFromAllPlayers p b).players pid = (b.players pid).filter (fun q => q ≠ p) := rfl

@[simp] theorem removePosFromAllPlayers_rows (p : Pos) (b : Board) :
    (removePosFromAllPlayers p b).rows = b.rows := rfl

@[simp] theorem removePosFromAllPlayers_cols (p : Pos) (b : Board) :
    (removePosFromAllPlayers p b).cols = b.cols := rfl

@[simp] theorem removePosFromAllPlayers_waiters (p : Pos) (b : Board) :
    (removePosFromAllPlayers p b).waiters = b.waiters := rfl

@[simp] theorem removePosFromAllPlayers_wokenWaiters (p : Pos) (b : Board) :
    (removePosFromAllPlayers p b).wokenWaiters = b.wokenWaiters := rfl

@[simp] theorem removePosFromAllPlayers_changes (p : Pos) (b : Board) :
    (removePosFromAllPlayers p b).changes = b.changes := rfl

@[simp] theorem removePosFromAllPlayers_watchers (p : Pos) (b : Board) :
    (removePosFromAllPlayers p b).watchers = b.watchers := rfl

/-! ### Basic facts about `wakeNextWaiter` -/
theorem wakeNextWaiter_players (k : Nat) (p : Pos) (b : Board) :
    (wakeNextWaiter k p b).players = b.players := by
  simp only [wakeNextWaiter]
  cases h : (b.waiters p).get? (k % (b.waiters p).length) with
  | none => rfl
  | some item => by_cases hc : (b.cells p).card = none <;> simp [hc, notifyWatchers]

theorem wakeNextWaiter_card (k : Nat) (p : Pos) (b : Board) (q : Pos) :
    ((wakeNextWaiter k p b).cells q).card = (b.cells q).card := by
  simp only [wakeNextWaiter]
  cases h : (b.waiters p).get? (k % (b.waiters p).length) with
  | none => rfl
  | some item =>
    by_cases hc : (b.cells p).card = none
    · simp [hc]
    · by_cases hq : q = p <;> simp [hc, hq, notifyWatchers]

theorem wakeNextWaiter_rows (k : Nat) (p : Pos) (b : Board) :
    (wakeNextWaiter k p b).rows = b.rows := by
  simp only [wakeNextWaiter]
  cases h : (b.waiters p).get? (k % (b.waiters p).length) with
  | none => rfl
  | some item => by_cases hc : (b.cells p).card = none <;> simp [hc, notifyWatchers]

theorem wakeNextWaiter_cols (k : Nat) (p : Pos) (b : Board) :
    (wakeNextWaiter k p b).cols = b.cols := by
  simp only [wakeNextWaiter]
  cases h : (b.waiters p).get? (k % (b.waiters p).length) with
  | none => rfl
  | some item => by_cases hc : (b.cells p).card = none <;> simp [hc, notifyWatchers]

theorem wakeNextWaiter_waiters_other (k : Nat) (p : Pos) (b : Board) (q : Pos)
    (hq : q ≠ p) : (wakeNextWaiter k p b).waiters q = b.waiters q := by
  simp only [wakeNextWaiter]
  cases h : (b.waiters p).get? (k % (b.waiters p).length) with
  | none => rfl
  | some item => by_cases hc : (b.cells p).card = none <;> simp [hc, hq, notifyWatchers]

/-- C6: a flip whose row or column lies outside `[0,rows)x[0,cols)`
fails with `InvalidCoordinates` and leaves the board completely
unchanged — every cell, every player record, the waiter queues, the
watcher queue, and the event log are exactly as before the call
(negative indices cannot arise in this `Nat`-indexed model; the
source's `row < 0` test is subsumed by the range check). -/
theorem flip_out_of_range (k1 k2 kw wid : Nat) (pid : String) (r c : Nat) (b : Board)
    (h : ¬(r < b.rows ∧ c < b.cols)) :
    flipOnce k1 k2 kw wid pid r c b = (.fail .invalidCoordinates, b) := by
  simp [flipOnce, h]

/-- C10: a second-card flip targeting the very cell the player already
holds fails with `TargetControlled`; the player's control of that cell
is set to absent while the cell stays face-up with its label intact,
and the cell remains in the player's `controlled` record as the
pending-finalization marker for the next flip's Step A. -/
theorem secondFlip_on_own_cell_targetControlled
    (k1 k2 kw wid : Nat) (pid : String) (r0 c0 : Nat) (l : String) (b : Board)
    (hb : r0 < b.rows ∧ c0 < b.cols)
    (hp : b.players pid = [(r0, c0)])
    (hl : (b.cells (r0, c0)).card = some l)
    (ho : (b.cells (r0, c0)).controller = some pid)
    (hf : (b.cells (r0, c0)).faceUp = true) :
    (flipOnce k1 k2 kw wid pid r0 c0 b).1 = .fail .targetControlled ∧
    ((flipOnce k1 k2 kw wid pid r0 c0 b).2.cells (r0, c0)).controller = none ∧
    ((flipOnce k1 k2 kw wid pid r0 c0 b).2.cells (r0, c0)).faceUp = true ∧
    ((flipOnce k1 k2 kw wid pid r0 c0 b).2.cells (r0, c0)).card = some l ∧
    (flipOnce k1 k2 kw wid pid r0 c0 b).2.players pid = [(r0, c0)] := by
  have hfin : finishPreviousForPlayer k1 k2 pid b = b := by
    simp only [finishPreviousForPlayer, hp]
    simp [ho]
  rw [flipOnce, if_pos hb, hfin]
  simp only [flipAttempt, hp]
  simp [hl, ho, hf]

/-- Witness for C10 at `wBoard`: alice re-flips her own `(0,0)`. -/
theorem secondFlip_on_own_cell_targetControlled_witness :
    ((0 < wBoard.rows ∧ 0 < wBoard.cols) ∧
      wBoard.players "alice" = [(0, 0)] ∧
      (wBoard.cells (0, 0)).card = some "A" ∧
      (wBoard.cells (0, 0)).controller = some "alice" ∧
      (wBoard.cells (0, 0)).faceUp = true) ∧
    ((flipOnce 0 0 0 9 "alice" 0 0 wBoard).1 = .fail .targetControlled ∧
      ((flipOnce 0 0 0 9 "alice" 0 0 wBoard).2.cells (0, 0)).controller = none ∧
      ((flipOnce 0 0 0 9 "alice" 0 0 wBoard).2.cells (0, 0)).faceUp = true ∧
      ((flipOnce 0 0 0 9 "alice" 0 0 wBoard).2.cells (0, 0)).card = some "A" ∧
      (flipOnce 0 0 0 9 "alice" 0 0 wBoard).2.players "alice" = [(0, 0)]) :=
  ⟨⟨by decide, by decide, by decide, by decide, by decide⟩,
    secondFlip_on_own_cell_targetControlled 0 0 0 9 "alice" 0 0 "A" wBoard
      (by decide) (by decide) (by decide) (by decide) (by decide)⟩

/-- Full characterization of `wakeNextWaiter_locked` on a non-empty
queue (helper shared by several proofs below). -/
theorem wakeNextWaiter_spec (k : Nat) (p : Pos) (b : Board)
    (hq : b.waiters p ≠ []) :
    ∃ w, (b.waiters p).get? (k % (b.waiters p).length) = some w ∧
      (wakeNextWaiter k p b).waiters p =
        removeIdx (b.waiters p) (k % (b.waiters p).length) ∧
      (∀ q, q ≠ p → (wakeNextWaiter k p b).waiters q = b.waiters q) ∧
      (wakeNextWaiter k p b).wokenWaiters = b.wokenWaiters ++ [(p, w)] ∧
      ((b.cells p).card = none →
        (wakeNextWaiter k p b).cells = b.cells ∧
        (wakeNextWaiter k p b).changes = b.changes) ∧
      ((b.cells p).card ≠ none →
        (wakeNextWaiter k p b).cells p = ⟨(b.cells p).card, true, some w.pid⟩ ∧
        (∀ q, q ≠ p → (wakeNextWaiter k p b).cells q = b.cells q) ∧
        (wakeNextWaiter k p b).changes = b.changes + 1) := by
  have hlen : 0 < (b.waiters p).length := List.length_pos.mpr hq
  have hlt : k % (b.waiters p).length < (b.waiters p).length := Nat.mod_lt _ hlen
  obtain ⟨w, hw⟩ : ∃ w, (b.waiters p).get? (k % (b.waiters p).length) = some w := by
    cases hg : (b.waiters p).get? (k % (b.waiters p).length) with
    | none => exact absurd (List.get?_eq_none.mp hg) (Nat.not_le.mpr hlt)
    | some w => exact ⟨w, rfl⟩
  refine ⟨w, hw, ?_⟩
  simp only [wakeNextWaiter, hw]
  by_cases hc : (b.cells p).card = none
  · simp [hc]
    exact fun a b1 h1 h2 => absurd h2 h1
  · simp [hc, notifyWatchers]
    exact ⟨fun a b1 h1 h2 => absurd h2 h1, fun a b1 h1 h2 => absurd h2 h1⟩

/-- Waking at a cell with an empty waiter queue does nothing. -/
theorem wakeNextWaiter_empty (k : Nat) (p : Pos) (b : Board)
    (h : b.waiters p = []) : wakeNextWaiter k p b = b := by
  simp [wakeNextWaiter, h]

/-- C3: a wake call on a non-empty waiter queue dequeues exactly one
waiter (the rest stay queued, in order, and no other cell's queue is
touched) and resolves exactly that waiter's one-shot; if the cell's
label is absent at wake time the cell is left untouched and no change
event is emitted, otherwise — still inside the same locked section,
before the one-shot is resolved — the cell is made face-up with the
woken waiter's player id as controller and a change event is emitted. -/
theorem wake_one_waiter (k : Nat) (p : Pos) (b : Board)
    (hq : b.waiters p ≠ []) :
    ∃ w, (b.waiters p).get? (k % (b.waiters p).length) = some w ∧
      (wakeNextWaiter k p b).waiters p =
        removeIdx (b.waiters p) (k % (b.waiters p).length) ∧
      (∀ q, q ≠ p → (wakeNextWaiter k p b).waiters q = b.waiters q) ∧
      (wakeNextWaiter k p b).wokenWaiters = b.wokenWaiters ++ [(p, w)] ∧
      ((b.cells p).card = none →
        (wakeNextWaiter k p b).cells = b.cells ∧
        (wakeNextWaiter k p b).changes = b.changes) ∧
      ((b.cells p).card ≠ none →
        (wakeNextWaiter k p b).cells p = ⟨(b.cells p).card, true, some w.pid⟩ ∧
        (∀ q, q ≠ p → (wakeNextWaiter k p b).cells q = b.cells q) ∧
        (wakeNextWaiter k p b).changes = b.changes + 1) :=
  wakeNextWaiter_spec k p b hq

/-- Witness for C3 at `wBoard`: wake the single waiter `bob` queued at
`(0,0)`, where an `A` card is present. -/
theorem wake_one_waiter_witness :
    wBoard.waiters (0, 0) ≠ [] ∧
    (∃ w, (wBoard.waiters (0, 0)).get? (0 % (wBoard.waiters (0, 0)).length) = some w ∧
      (wakeNextWaiter 0 (0, 0) wBoard).waiters (0, 0) =
        removeIdx (wBoard.waiters (0, 0)) (0 % (wBoard.waiters (0, 0)).length) ∧
      (∀ q, q ≠ (0, 0) → (wakeNextWaiter 0 (0, 0) wBoard).waiters q = wBoard.waiters q) ∧
      (wakeNextWaiter 0 (0, 0) wBoard).wokenWaiters = wBoard.wokenWaiters ++ [((0, 0), w)] ∧
      ((wBoard.cells (0, 0)).card = none →
        (wakeNextWaiter 0 (0, 0) wBoard).cells = wBoard.cells ∧
        (wakeNextWaiter 0 (0, 0) wBoard).changes = wBoard.changes) ∧
      ((wBoard.cells (0, 0)).card ≠ none →
        (wakeNextWaiter 0 (0, 0) wBoard).cells (0, 0) =
          ⟨(wBoard.cells (0, 0)).card, true, some w.pid⟩ ∧
        (∀ q, q ≠ (0, 0) → (wakeNextWaiter 0 (0, 0) wBoard).cells q = wBoard.cells q) ∧
        (wakeNextWaiter 0 (0, 0) wBoard).changes = wBoard.changes + 1)) :=
  ⟨by decide, wake_one_waiter 0 (0, 0) wBoard (by decide)⟩

/-- Counterexample to C5: with `pat.controlled = [(0,0)]` and the
cell's controller the *other* player `quinn` (not absent), the claim
mandates finalization (face-down, record cleared, waiter woken); the
code's Step A leaves the board completely unchanged, because
`finishPreviousForPlayer_locked` finalizes a single recorded cell only
when `controlledBy[r][c] === null`. -/
theorem finalize_single_transferred_counterexample :
    bC5.players "pat" = [(0, 0)] ∧
    (bC5.cells (0, 0)).controller = some "quinn" ∧
    some "quinn" ≠ some "pat" ∧
    finishPreviousForPlayer 0 0 "pat" bC5 = bC5 ∧
    ((finishPreviousForPlayer 0 0 "pat" bC5).cells (0, 0)).faceUp = true ∧
    (finishPreviousForPlayer 0 0 "pat" bC5).players "pat" = [(0, 0)] :=
  ⟨rfl, rfl, by decide, rfl, by decide, by decide⟩

/-- C5 as amended: when the player's record holds exactly one cell,
Step A finalizes it only if the cell is still present *and its
controller is absent*: then the cell is turned face-down (it was
face-up and uncontrolled), the record is cleared, a change event is
emitted, and one waiter at that cell is woken; if the controller is
still any player — the player itself or another player to whom
ownership was transferred — or the card is gone, Step A does nothing. -/
theorem finalize_single_only_if_uncontrolled
    (k1 k2 : Nat) (pid : String) (p : Pos) (b : Board) (l : String)
    (hp : b.players pid = [p]) :
    ((b.cells p).card = some l → (b.cells p).controller = none →
      (b.cells p).faceUp = true →
      ∃ bMid, finishPreviousForPlayer k1 k2 pid b = wakeNextWaiter k1 p bMid ∧
        bMid.cells p = ⟨some l, false, none⟩ ∧
        (∀ q, q ≠ p → bMid.cells q = b.cells q) ∧
        bMid.players pid = [] ∧
        bMid.changes = b.changes + 1 ∧
        bMid.waiters = b.waiters ∧
        bMid.wokenWaiters = b.wokenWaiters ∧
        (b.waiters p ≠ [] → ∃ w,
          (finishPreviousForPlayer k1 k2 pid b).wokenWaiters =
            b.wokenWaiters ++ [(p, w)])) ∧
    ((b.cells p).controller ≠ none ∨ (b.cells p).card = none →
      finishPreviousForPlayer k1 k2 pid b = b) := by
  constructor
  · intro hl ho hf
    have hcond : (b.cells p).card ≠ none ∧ (b.cells p).controller = none :=
      ⟨by simp [hl], ho⟩
    have heq : finishPreviousForPlayer k1 k2 pid b =
        wakeNextWaiter k1 p (notifyWatchers (removePosFromAllPlayers p
          (setCell (setPlayer b pid []) p { b.cells p with faceUp := false }))) := by
      simp only [finishPreviousForPlayer, hp]
      rw [if_pos hcond]
      simp [hf]
    refine ⟨notifyWatchers (removePosFromAllPlayers p
      (setCell (setPlayer b pid []) p { b.cells p with faceUp := false })),
      heq, ?_, ?_, ?_, ?_, ?_, ?_, ?_⟩
    · simp [hl, ho]
    · intro q hq
      simp [hq]
    · simp
    · simp
    · simp
    · simp
    · intro hne
      rw [heq]
      obtain ⟨w, -, -, -, hwoken, -⟩ :=
        wakeNextWaiter_spec k1 p (notifyWatchers (removePosFromAllPlayers p
          (setCell (setPlayer b pid []) p { b.cells p with faceUp := false })))
          (by simpa using hne)
      exact ⟨w, by simpa using hwoken⟩
  · intro h
    simp only [finishPreviousForPlayer, hp]
    rw [if_neg]
    rintro ⟨hcard, hctrl⟩
    cases h with
    | inl h => exact h hctrl
    | inr h => exact hcard h

/-- Witness for the amended C5 at `bW5`. -/
theorem finalize_single_only_if_uncontrolled_witness :
    bW5.players "pat" = [(0, 0)] ∧
    ((((bW5.cells (0, 0)).card = some "A" → (bW5.cells (0, 0)).controller = none →
      (bW5.cells (0, 0)).faceUp = true →
      ∃ bMid, finishPreviousForPlayer 0 0 "pat" bW5 = wakeNextWaiter 0 (0, 0) bMid ∧
        bMid.cells (0, 0) = ⟨some "A", false, none⟩ ∧
        (∀ q, q ≠ (0, 0) → bMid.cells q = bW5.cells q) ∧
        bMid.players "pat" = [] ∧
        bMid.changes = bW5.changes + 1 ∧
        bMid.waiters = bW5.waiters ∧
        bMid.wokenWaiters = bW5.wokenWaiters ∧
        (bW5.waiters (0, 0) ≠ [] → ∃ w,
          (finishPreviousForPlayer 0 0 "pat" bW5).wokenWaiters =
            bW5.wokenWaiters ++ [((0, 0), w)])) ∧
      ((bW5.cells (0, 0)).controller ≠ none ∨ (bW5.cells (0, 0)).card = none →
        finishPreviousForPlayer 0 0 "pat" bW5 = bW5))) :=
  ⟨by decide, finalize_single_only_if_uncontrolled 0 0 "pat" (0, 0) bW5 "A" (by decide)⟩

/-- C2: a successful second-card flip whose label differs from the
held first card `(r0,c0)` relinquishes both controllers while both
cells stay face-up, records `p.controlled = [(r0,c0),(r,c)]`, emits a
change event, and then — inside the same locked section — wakes
exactly one waiter queued at `(r0,c0)` (none when that queue is
empty), while no waiter at `(r,c)` is woken and its queue is left
untouched. -/
theorem mismatch_second_flip
    (k1 k2 kw wid : Nat) (pid : String) (r0 c0 r c : Nat) (l0 l1 : String) (b : Board)
    (hb : r < b.rows ∧ c < b.cols)
    (hp : b.players pid = [(r0, c0)])
    (ho : (b.cells (r0, c0)).controller = some pid)
    (hf0 : (b.cells (r0, c0)).faceUp = true)
    (hl0 : (b.cells (r0, c0)).card = some l0)
    (hl1 : (b.cells (r, c)).card = some l1)
    (hT : ¬((b.cells (r, c)).faceUp = true ∧ (b.cells (r, c)).controller ≠ none))
    (hlne : l0 ≠ l1) :
    ∃ bMid,
      flipOnce k1 k2 kw wid pid r c b = (.ok, wakeNextWaiter kw (r0, c0) bMid) ∧
      bMid.cells (r0, c0) = ⟨some l0, true, none⟩ ∧
      bMid.cells (r, c) = ⟨some l1, true, none⟩ ∧
      (∀ q, q ≠ (r0, c0) → q ≠ (r, c) → bMid.cells q = b.cells q) ∧
      bMid.players pid = [(r0, c0), (r, c)] ∧
      bMid.changes = b.changes + 1 ∧
      bMid.waiters = b.waiters ∧
      bMid.wokenWaiters = b.wokenWaiters ∧
      (b.waiters (r0, c0) ≠ [] → ∃ w, w ∈ b.waiters (r0, c0) ∧
        (flipOnce k1 k2 kw wid pid r c b).2.wokenWaiters =
          b.wokenWaiters ++ [((r0, c0), w)]) ∧
      (b.waiters (r0, c0) = [] →
        (flipOnce k1 k2 kw wid pid r c b).2.wokenWaiters = b.wokenWaiters) ∧
      (flipOnce k1 k2 kw wid pid r c b).2.waiters (r, c) = b.waiters (r, c) := by
  have hne : ((r, c) : Pos) ≠ ((r0, c0) : Pos) := by
    intro h
    rw [h] at hT
    exact hT ⟨hf0, by simp [ho]⟩
  have hc1 : ¬(r = r0 ∧ c = c0) := fun ⟨h1, h2⟩ => hne (by rw [h1, h2])
  have hc2 : ¬(r0 = r ∧ c0 = c) := fun ⟨h1, h2⟩ => hne (by rw [h1, h2])
  have hfin : finishPreviousForPlayer k1 k2 pid b = b := by
    simp only [finishPreviousForPlayer, hp]
    simp [ho]
  have heq : flipOnce k1 k2 kw wid pid r c b =
      (.ok, wakeNextWaiter kw (r0, c0) (mismatchMid pid (r0, c0) (r, c) b)) := by
    rw [flipOnce, if_pos hb, hfin]
    simp only [flipAttempt, hp]
    rw [if_neg (by simp [hl1] : ¬ (b.cells ((r : Nat), (c : Nat))).card = none), if_neg hT]
    have hmc : ¬((((setCell b (r, c) ⟨(b.cells (r, c)).card, true, some pid⟩).cells (r0, c0)).card ≠ none) ∧
        (((setCell b (r, c) ⟨(b.cells (r, c)).card, true, some pid⟩).cells (r, c)).card ≠ none) ∧
        ((setCell b (r, c) ⟨(b.cells (r, c)).card, true, some pid⟩).cells (r0, c0)).card =
          ((setCell b (r, c) ⟨(b.cells (r, c)).card, true, some pid⟩).cells (r, c)).card) := by
      simp [hc1, hc2, hl0, hl1, hlne]
    rw [if_neg hmc]
    rfl
  have hmid_waiters : (mismatchMid pid (r0, c0) (r, c) b).waiters = b.waiters := by
    simp [mismatchMid]
  have hmid_woken : (mismatchMid pid (r0, c0) (r, c) b).wokenWaiters = b.wokenWaiters := by
    simp [mismatchMid]
  refine ⟨mismatchMid pid (r0, c0) (r, c) b, heq, ?_, ?_, ?_, ?_, ?_,
    hmid_waiters, hmid_woken, ?_, ?_, ?_⟩
  · simp [mismatchMid, hc1, hc2, hl0, ho, hf0]
  · simp [mismatchMid, hc1, hc2, hl1]
  · intro q hq0 hq1
    simp [mismatchMid, hq0, hq1]
  · simp [mismatchMid]
  · simp [mismatchMid]
  · intro hnem
    obtain ⟨w, hget, -, -, hwk, -⟩ :=
      wakeNextWaiter_spec kw (r0, c0) (mismatchMid pid (r0, c0) (r, c) b)
        (by rw [hmid_waiters]; exact hnem)
    refine ⟨w, ?_, ?_⟩
    · rw [hmid_waiters] at hget
      exact List.get?_mem hget
    · rw [heq]
      simpa [hmid_woken] using hwk
  · intro hem
    rw [heq]
    show (wakeNextWaiter kw (r0, c0) (mismatchMid pid (r0, c0) (r, c) b)).wokenWaiters
      = b.wokenWaiters
    rw [wakeNextWaiter_empty kw (r0, c0) _ (by rw [hmid_waiters]; exact hem)]
    exact hmid_woken
  · rw [heq]
    show (wakeNextWaiter kw (r0, c0) (mismatchMid pid (r0, c0) (r, c) b)).waiters (r, c)
      = b.waiters (r, c)
    rw [wakeNextWaiter_waiters_other kw (r0, c0) _ (r, c) hne]
    rw [hmid_waiters]

/-- Witness for C2 at `wBoard`: alice, holding the `A` at `(0,0)`,
flips the face-down `B` at `(0,1)` while `bob` waits on `(0,0)`. -/
theorem mismatch_second_flip_witness :
    ((0 < wBoard.rows ∧ 1 < wBoard.cols) ∧
      wBoard.players "alice" = [(0, 0)] ∧
      (wBoard.cells (0, 0)).controller = some "alice" ∧
      (wBoard.cells (0, 0)).faceUp = true ∧
      (wBoard.cells (0, 0)).card = some "A" ∧
      (wBoard.cells (0, 1)).card = some "B" ∧
      ¬((wBoard.cells (0, 1)).faceUp = true ∧ (wBoard.cells (0, 1)).controller ≠ none) ∧
      "A" ≠ "B") ∧
    (∃ bMid,
      flipOnce 0 0 0 9 "alice" 0 1 wBoard = (.ok, wakeNextWaiter 0 (0, 0) bMid) ∧
      bMid.cells (0, 0) = ⟨some "A", true, none⟩ ∧
      bMid.cells (0, 1) = ⟨some "B", true, none⟩ ∧
      (∀ q, q ≠ (0, 0) → q ≠ (0, 1) → bMid.cells q = wBoard.cells q) ∧
      bMid.players "alice" = [(0, 0), (0, 1)] ∧
      bMid.changes = wBoard.changes + 1 ∧
      bMid.waiters = wBoard.waiters ∧
      bMid.wokenWaiters = wBoard.wokenWaiters ∧
      (wBoard.waiters (0, 0) ≠ [] → ∃ w, w ∈ wBoard.waiters (0, 0) ∧
        (flipOnce 0 0 0 9 "alice" 0 1 wBoard).2.wokenWaiters =
          wBoard.wokenWaiters ++ [((0, 0), w)]) ∧
      (wBoard.waiters (0, 0) = [] →
        (flipOnce 0 0 0 9 "alice" 0 1 wBoard).2.wokenWaiters = wBoard.wokenWaiters) ∧
      (flipOnce 0 0 0 9 "alice" 0 1 wBoard).2.waiters (0, 1) = wBoard.waiters (0, 1)) :=
  ⟨⟨by decide, by decide, by decide, by decide, by decide, by decide, by decide, by decide⟩,
    mismatch_second_flip 0 0 0 9 "alice" 0 0 0 1 "A" "B" wBoard
      (by decide) (by decide) (by decide) (by decide) (by decide) (by decide)
      (by decide) (by decide)⟩

/-- The flip-attempt section never changes any card label when the
player's record is empty (helper for the finalization-ordering claim). -/
theorem flipAttempt_card_nil (kw wid : Nat) (pid : String) (r c : Nat) (b : Board)
    (hpl : b.players pid = []) (q : Pos) :
    ((flipAttempt kw wid pid r c b).2.cells q).card = (b.cells q).card := by
  simp only [flipAttempt, hpl]
  by_cases h1 : (b.cells (r, c)).card = none
  · simp [h1]
  · by_cases h2 : (b.cells (r, c)).controller ≠ none ∧ (b.cells (r, c)).controller ≠ some pid
    · simp [h1, h2]
    · by_cases hq : q = ((r : Nat), (c : Nat)) <;> simp [h1, h2, hq]

/-- Counterexample to C1: the claim puts Step A before the bounds
check, so an out-of-range `flip(pat, 0, 5)` would still remove `pat`'s
matched pending pair observably. In the code the bounds check runs
first (board.ts line 297, before the lock-protected call to
`finishPreviousForPlayer_locked` at line 302): the call fails with
`InvalidCoordinates` and the board is completely unchanged — the pair
Step A would have removed is still present and still recorded. -/
theorem flip_finalize_counterexample :
    bC1.players "pat" = [(0, 0), (0, 1)] ∧
    (bC1.cells (0, 0)).card = some "A" ∧
    (bC1.cells (0, 1)).card = some "A" ∧
    ((finishPreviousForPlayer 0 0 "pat" bC1).cells (0, 0)).card = none ∧
    flipOnce 0 0 0 0 "pat" 0 5 bC1 = (.fail .invalidCoordinates, bC1) ∧
    ((flipOnce 0 0 0 0 "pat" 0 5 bC1).2.cells (0, 0)).card = some "A" ∧
    (flipOnce 0 0 0 0 "pat" 0 5 bC1).2.players "pat" = [(0, 0), (0, 1)] :=
  ⟨rfl, rfl, rfl, by decide, rfl, by decide, by decide⟩

/-- C1 as amended: for every *in-range* flip, the finalization of the
player's previous turn is performed — inside its own locked section —
before the new flip attempt is evaluated, so its effects (here: the
removal of a matched pending pair) are in the post-state regardless of
the attempt's outcome and are observable before the new flip's
effects; an out-of-range flip, however, fails the bounds check before
Step A runs (see the counterexample). -/
theorem flip_finalizes_before_attempt
    (k1 k2 kw wid : Nat) (pid : String) (r c : Nat) (b : Board) (p1 p2 : Pos) (l : String)
    (hb : r < b.rows ∧ c < b.cols)
    (hp : b.players pid = [p1, p2])
    (hl1 : (b.cells p1).card = some l)
    (hl2 : (b.cells p2).card = some l) :
    flipOnce k1 k2 kw wid pid r c b
      = flipAttempt kw wid pid r c (finishPreviousForPlayer k1 k2 pid b) ∧
    ((flipOnce k1 k2 kw wid pid r c b).2.cells p1).card = none ∧
    ((flipOnce k1 k2 kw wid pid r c b).2.cells p2).card = none := by
  have hcond : (b.cells p1).card ≠ none ∧ (b.cells p2).card ≠ none ∧
      (b.cells p1).card = (b.cells p2).card := by
    simp [hl1, hl2]
  have hfeq : finishPreviousForPlayer k1 k2 pid b =
      wakeNextWaiter k2 p2 (wakeNextWaiter k1 p1 (notifyWatchers
        (removePosFromAllPlayers p2 (removePosFromAllPlayers p1
          (setPlayer (setCell (setCell b p1 ⟨none, false, none⟩) p2 ⟨none, false, none⟩)
            pid []))))) := by
    simp only [finishPreviousForPlayer, hp]
    rw [if_pos hcond]
  have hfp : (finishPreviousForPlayer k1 k2 pid b).players pid = [] := by
    rw [hfeq, wakeNextWaiter_players, wakeNextWaiter_players]
    simp
  have hfc1 : ((finishPreviousForPlayer k1 k2 pid b).cells p1).card = none := by
    rw [hfeq, wakeNextWaiter_card, wakeNextWaiter_card]
    by_cases h : p1 = p2 <;> simp [h]
  have hfc2 : ((finishPreviousForPlayer k1 k2 pid b).cells p2).card = none := by
    rw [hfeq, wakeNextWaiter_card, wakeNextWaiter_card]
    simp
  have hA : flipOnce k1 k2 kw wid pid r c b
      = flipAttempt kw wid pid r c (finishPreviousForPlayer k1 k2 pid b) := by
    rw [flipOnce, if_pos hb]
  refine ⟨hA, ?_, ?_⟩
  · rw [hA, flipAttempt_card_nil kw wid pid r c _ hfp p1]
    exact hfc1
  · rw [hA, flipAttempt_card_nil kw wid pid r c _ hfp p2]
    exact hfc2

/-- Witness for the amended C1 at `bC1` with in-range target `(0,0)`. -/
theorem flip_finalizes_before_attempt_witness :
    ((0 < bC1.rows ∧ 0 < bC1.cols) ∧
      bC1.players "pat" = [(0, 0), (0, 1)] ∧
      (bC1.cells (0, 0)).card = some "A" ∧
      (bC1.cells (0, 1)).card = some "A") ∧
    (flipOnce 0 0 0 0 "pat" 0 0 bC1
      = flipAttempt 0 0 "pat" 0 0 (finishPreviousForPlayer 0 0 "pat" bC1) ∧
    ((flipOnce 0 0 0 0 "pat" 0 0 bC1).2.cells (0, 0)).card = none ∧
    ((flipOnce 0 0 0 0 "pat" 0 0 bC1).2.cells (0, 1)).card = none) :=
  ⟨⟨by decide, by decide, by decide, by decide⟩,
    flip_finalizes_before_attempt 0 0 0 0 "pat" 0 0 bC1 (0, 0) (0, 1) "A"
      (by decide) (by decide) (by decide) (by decide)⟩

/-- Witness for C6 at `wBoard`: column 5 is out of range. -/
theorem flip_out_of_range_witness :
    ¬(0 < wBoard.rows ∧ 5 < wBoard.cols) ∧
    flipOnce 0 0 0 0 "alice" 0 5 wBoard = (.fail .invalidCoordinates, wBoard) :=
  ⟨by decide, flip_out_of_range 0 0 0 0 "alice" 0 5 wBoard (by decide)⟩

theorem absentInv_notify {b : Board} (h : absentInv b) :
    absentInv (notifyWatchers b) := fun p hp => h p hp

theorem absentInv_removeAll {b : Board} (p0 : Pos) (h : absentInv b) :
    absentInv (removePosFromAllPlayers p0 b) := fun p hp => h p hp

theorem absentInv_setPlayer {b : Board} (pid : String) (l : List Pos) (h : absentInv b) :
    absentInv (setPlayer b pid l) := fun p hp => h p hp

theorem absentInv_watchRegister {b : Board} (wid : Nat) (h : absentInv b) :
    absentInv (watchRegister wid b) := fun p hp => h p hp

theorem absentInv_setCell {b : Board} {p0 : Pos} {cell : Cell} (h : absentInv b)
    (hcell : cell.card = none → cell.faceUp = false ∧ cell.controller = none) :
    absentInv (setCell b p0 cell) := by
  intro q hq
  by_cases e : q = p0
  · simp only [setCell_cells, if_pos e] at hq ⊢
    exact hcell hq
  · simp only [setCell_cells, if_neg e] at hq ⊢
    exact h q hq

theorem absentInv_wake {b : Board} (k : Nat) (p0 : Pos) (h : absentInv b) :
    absentInv (wakeNextWaiter k p0 b) := by
  simp only [wakeNextWaiter]
  cases hg : (b.waiters p0).get? (k % (b.waiters p0).length) with
  | none => exact h
  | some item =>
    by_cases hc : (b.cells p0).card = none
    · simp only [if_pos hc]
      exact fun q hq => h q hq
    · simp only [if_neg hc]
      intro q hq
      by_cases e : q = p0
      · simp only [notifyWatchers, if_pos e] at hq
        exact absurd hq hc
      · simp only [notifyWatchers, if_neg e] at hq ⊢
        exact h q hq

theorem absentInv_relinquish {acc : Board} (pid : String) (p : Pos)
    (h : absentInv acc) : absentInv (relinquishIfOwned pid acc p) := by
  unfold relinquishIfOwned
  split
  · next hc => exact absentInv_setCell h (fun hn => absurd hn hc.1)
  · exact h

theorem absentInv_faceDown {acc : Board × Bool} (p : Pos)
    (h : absentInv acc.1) : absentInv (faceDownIfFree acc p).1 := by
  unfold faceDownIfFree
  split
  · next hc => exact absentInv_removeAll p (absentInv_setCell h (fun hn => absurd hn hc.1))
  · exact h

theorem absentInv_finish {b : Board} (k1 k2 : Nat) (pid : String) (h : absentInv b) :
    absentInv (finishPreviousForPlayer k1 k2 pid b) := by
  rcases hpl : b.players pid with _ | ⟨p1, _ | ⟨p2, _ | _⟩⟩
  · simpa [finishPreviousForPlayer, hpl] using h
  · simp only [finishPreviousForPlayer, hpl]
    by_cases hcond : (b.cells p1).card ≠ none ∧ (b.cells p1).controller = none
    · rw [if_pos hcond]
      refine absentInv_wake k1 p1 ?_
      by_cases hf : ((setPlayer b pid []).cells p1).faceUp
      · rw [if_pos hf]
        exact absentInv_notify (absentInv_removeAll p1 (absentInv_setCell
          (absentInv_setPlayer pid [] h) (fun hn => absurd hn hcond.1)))
      · rw [if_neg hf]
        exact absentInv_setPlayer pid [] h
    · rw [if_neg hcond]
      exact h
  · simp only [finishPreviousForPlayer, hpl]
    by_cases hcond : (b.cells p1).card ≠ none ∧ (b.cells p2).card ≠ none ∧
        (b.cells p1).card = (b.cells p2).card
    · rw [if_pos hcond]
      exact absentInv_wake k2 p2 (absentInv_wake k1 p1 (absentInv_notify
        (absentInv_removeAll p2 (absentInv_removeAll p1 (absentInv_setPlayer pid []
          (absentInv_setCell (absentInv_setCell h (fun _ => ⟨rfl, rfl⟩))
            (fun _ => ⟨rfl, rfl⟩)))))))
    · rw [if_neg hcond]
      refine absentInv_wake k2 p2 (absentInv_wake k1 p1 ?_)
      have hbc : absentInv (faceDownIfFree (faceDownIfFree
          ((setPlayer (relinquishIfOwned pid (relinquishIfOwned pid b p1) p2) pid []),
            false) p1) p2).1 :=
        absentInv_faceDown p2 (absentInv_faceDown p1 (absentInv_setPlayer pid []
          (absentInv_relinquish pid p2 (absentInv_relinquish pid p1 h))))
      split
      · exact absentInv_notify hbc
      · exact hbc
  · simpa [finishPreviousForPlayer, hpl] using h

theorem absentInv_attempt {b : Board} (kw wid : Nat) (pid : String) (r c : Nat)
    (h : absentInv b) : absentInv (flipAttempt kw wid pid r c b).2 := by
  rcases hpl : b.players pid with _ | ⟨p0, _ | _⟩
  · simp only [flipAttempt, hpl]
    split
    · exact h
    · split
      · exact fun q hq => h q hq
      · next h1 _ =>
        exact absentInv_notify (absentInv_setPlayer pid _
          (absentInv_setCell h (fun hn => absurd hn h1)))
  · simp only [flipAttempt, hpl]
    split
    · exact absentInv_setPlayer pid _
        (absentInv_setCell h (fun hn => ⟨(h p0 hn).1, rfl⟩))
    · split
      · exact absentInv_setPlayer pid _
          (absentInv_setCell h (fun hn => ⟨(h p0 hn).1, rfl⟩))
      · next h1 _ =>
        have hX : absentInv
            (setCell b (r, c) ⟨(b.cells (r, c)).card, true, some pid⟩) :=
          absentInv_setCell h (fun hn => absurd hn h1)
        have hY : absentInv (setCell
            (setCell b (r, c) ⟨(b.cells (r, c)).card, true, some pid⟩) p0
            { (setCell b (r, c) ⟨(b.cells (r, c)).card, true, some pid⟩).cells p0 with
                controller := none }) :=
          absentInv_setCell hX (fun hn => ⟨(hX p0 hn).1, rfl⟩)
        have hZ : absentInv (setCell (setCell
            (setCell b (r, c) ⟨(b.cells (r, c)).card, true, some pid⟩) p0
            { (setCell b (r, c) ⟨(b.cells (r, c)).card, true, some pid⟩).cells p0 with
                controller := none }) (r, c)
            { (setCell (setCell b (r, c) ⟨(b.cells (r, c)).card, true, some pid⟩) p0
                { (setCell b (r, c) ⟨(b.cells (r, c)).card, true, some pid⟩).cells p0 with
                    controller := none }).cells (r, c) with controller := none }) :=
          absentInv_setCell hY (fun hn => ⟨(hY (r, c) hn).1, rfl⟩)
        split
        · exact absentInv_notify (absentInv_setPlayer pid _ hX)
        · exact absentInv_wake kw p0 (absentInv_notify (absentInv_setPlayer pid _ hZ))
  · simpa [flipAttempt, hpl] using h

theorem absentInv_flipOnce {b : Board} (k1 k2 kw wid : Nat) (pid : String) (r c : Nat)
    (h : absentInv b) : absentInv (flipOnce k1 k2 kw wid pid r c b).2 := by
  unfold flipOnce
  split
  · exact absentInv_attempt kw wid pid r c (absentInv_finish k1 k2 pid h)
  · exact h

theorem absentInv_mapFold (reps : List (Pos × String)) :
    ∀ b : Board, absentInv b → absentInv (reps.foldl applyRep b) := by
  induction reps with
  | nil => exact fun b h => h
  | cons rep reps ih =>
    intro b h
    exact ih _ (absentInv_setCell h (fun hn => absurd hn (by simp)))

theorem absentInv_applyRep {b : Board} (rep : Pos × String) (h : absentInv b) :
    absentInv (applyRep b rep) :=
  absentInv_setCell h (fun hn => absurd hn (by simp))

theorem absentInv_mapApply (reps : List (Pos × String)) (b : Board)
    (h : absentInv b) : absentInv (mapApply reps b) :=
  absentInv_notify (absentInv_mapFold reps b h)

theorem absentInv_boardFromCards (rows cols : Nat) (cards : List String) :
    absentInv (boardFromCards rows cols cards) := by
  intro p _
  refine ⟨?_, ?_⟩ <;>
  · simp only [boardFromCards]
    split
    · cases cards.get? (p.1 * cols + p.2) <;> rfl
    · rfl

/-- C7: the absent-cell invariant — a cell with no card is face-down
and uncontrolled — holds of every freshly constructed board and is
preserved by every public operation step: any single flip pass
(whatever its outcome), the finalize-previous-turn section, a waiter
wake, a whole map (compute on any interleaved board, then apply), a
bare apply phase, and watch registration. `look` mutates nothing (it
is a pure function of the board in this model), so the invariant holds
after every completed public operation. -/
theorem absent_implies_hidden_uncontrolled
    (k1 k2 kw wid wn : Nat) (pid : String) (r c : Nat) (f : String → String)
    (bc : Board) (reps : List (Pos × String)) (rows cols : Nat) (cards : List String)
    (b : Board) (h : absentInv b) :
    absentInv (boardFromCards rows cols cards) ∧
    absentInv ((flipOnce k1 k2 kw wid pid r c b).2) ∧
    absentInv (finishPreviousForPlayer k1 k2 pid b) ∧
    absentInv (wakeNextWaiter kw (r, c) b) ∧
    absentInv (mapOp f bc b) ∧
    absentInv (mapApply reps b) ∧
    absentInv (watchRegister wn b) :=
  ⟨absentInv_boardFromCards rows cols cards,
    absentInv_flipOnce k1 k2 kw wid pid r c h,
    absentInv_finish k1 k2 pid h,
    absentInv_wake kw (r, c) h,
    absentInv_mapApply (mapCompute f bc) b h,
    absentInv_mapApply reps b h,
    absentInv_watchRegister wn h⟩

theorem absentInv_wBoard : absentInv wBoard := by
  intro p hp
  by_cases h0 : p = ((0 : Nat), (0 : Nat))
  · simp [wBoard, h0] at hp
  · by_cases h1 : p = ((0 : Nat), (1 : Nat))
    · simp [wBoard, h0, h1] at hp
    · have h0z : p ≠ (0 : Pos) := fun h => h0 h
      simp [wBoard, h0z, h1]

/-- Witness for C7 at `wBoard`. -/
theorem absent_implies_hidden_uncontrolled_witness :
    absentInv wBoard ∧
    (absentInv (boardFromCards 1 2 ["A", "B"]) ∧
      absentInv ((flipOnce 0 0 0 9 "alice" 0 1 wBoard).2) ∧
      absentInv (finishPreviousForPlayer 0 0 "alice" wBoard) ∧
      absentInv (wakeNextWaiter 0 (0, 1) wBoard) ∧
      absentInv (mapOp (fun _ => "Z") wBoard wBoard) ∧
      absentInv (mapApply [((0, 0), "Z")] wBoard) ∧
      absentInv (watchRegister 4 wBoard)) :=
  ⟨absentInv_wBoard,
    absent_implies_hidden_uncontrolled 0 0 0 9 4 "alice" 0 1 (fun _ => "Z")
      wBoard [((0, 0), "Z")] 1 2 ["A", "B"] wBoard absentInv_wBoard⟩

theorem cellLine_eq_spec (pid : String) (cell : Cell) :
    cellLine pid cell = specCellLine pid cell := by
  rcases cell with ⟨card, faceUp, controller⟩
  cases card <;> cases faceUp <;> simp [cellLine, specCellLine]

theorem joinLines_newline (ls : List String) (hne : ls ≠ []) :
    joinLines ls ++ "\n" = terminatedConcat ls := by
  induction ls with
  | nil => exact absurd rfl hne
  | cons l ls ih =>
    cases ls with
    | nil => exact (String.append_empty _).symm
    | cons l2 t =>
      have h2 := ih (by simp)
      show (l ++ "\n" ++ joinLines (l2 :: t)) ++ "\n" = l ++ "\n" ++ terminatedConcat (l2 :: t)
      rw [String.append_assoc (l ++ "\n") (joinLines (l2 :: t)) "\n", h2]

/-- C8: `look` mutates nothing (in this model it is a pure function of
the board) and returns exactly the first line `"<rows>x<cols>"`, then
one line per cell in row-major order — `"none"`, `"down"`,
`"my <label>"`, or `"up <label>"` as the spec describes — followed by
a trailing newline. -/
theorem look_matches_snapshot_format (pid : String) (b : Board) :
    look pid b = specSnapshot pid b := by
  unfold look specSnapshot
  rw [joinLines_newline _ (by unfold lookLines; exact List.cons_ne_nil _ _)]
  unfold lookLines
  simp [cellLine_eq_spec]

theorem findLastRep_foldl (reps : List (Pos × String)) (q : Pos) :
    ∀ acc : Option String,
      reps.foldl (fun a rep => if rep.1 = q then some rep.2 else a) acc =
        match findLastRep reps q with
        | some v => some v
        | none => acc := by
  induction reps with
  | nil => intro acc; rfl
  | cons rep reps ih =>
    intro acc
    show reps.foldl _ (if rep.1 = q then some rep.2 else acc) = _
    rw [ih]
    have h2 : findLastRep (rep :: reps) q =
        match findLastRep reps q with
        | some v => some v
        | none => if rep.1 = q then some rep.2 else none := by
      show reps.foldl _ (if rep.1 = q then some rep.2 else none) = _
      rw [ih]
    rw [h2]
    cases hfl : findLastRep reps q
    · by_cases hr : rep.1 = q <;> simp [hr]
    · rfl

theorem findLastRep_append (xs ys : List (Pos × String)) (q : Pos) :
    findLastRep (xs ++ ys) q =
      match findLastRep ys q with
      | some v => some v
      | none => findLastRep xs q := by
  show (xs ++ ys).foldl _ none = _
  rw [List.foldl_append]
  exact findLastRep_foldl ys q _

theorem mapApply_cons (rep : Pos × String) (reps : List (Pos × String)) (b : Board) :
    mapApply (rep :: reps) b = mapApply reps (applyRep b rep) := rfl

theorem mapApply_card (reps : List (Pos × String)) :
    ∀ (b : Board) (q : Pos),
      ((mapApply reps b).cells q).card =
        match findLastRep reps q with
        | some v => some v
        | none => (b.cells q).card := by
  induction reps with
  | nil => intro b q; rfl
  | cons rep reps ih =>
    intro b q
    rw [mapApply_cons, ih]
    have h2 : findLastRep (rep :: reps) q =
        match findLastRep reps q with
        | some v => some v
        | none => if rep.1 = q then some rep.2 else none := findLastRep_foldl reps q _
    rw [h2]
    cases hfl : findLastRep reps q
    · by_cases hr : rep.1 = q
      · subst hr
        simp [applyRep]
      · have hq : ¬q = rep.1 := fun h => hr h.symm
        simp [applyRep, hq, hr]
    · rfl

theorem mapFold_frame (reps : List (Pos × String)) :
    ∀ b : Board,
      (reps.foldl applyRep b).players = b.players ∧
      (reps.foldl applyRep b).waiters = b.waiters ∧
      (reps.foldl applyRep b).wokenWaiters = b.wokenWaiters ∧
      (reps.foldl applyRep b).rows = b.rows ∧
      (reps.foldl applyRep b).cols = b.cols ∧
      (reps.foldl applyRep b).changes = b.changes ∧
      (reps.foldl applyRep b).watchers = b.watchers ∧
      (∀ q : Pos, ((reps.foldl applyRep b).cells q).faceUp = (b.cells q).faceUp ∧
        ((reps.foldl applyRep b).cells q).controller = (b.cells q).controller) := by
  induction reps with
  | nil => exact fun b => ⟨rfl, rfl, rfl, rfl, rfl, rfl, rfl, fun q => ⟨rfl, rfl⟩⟩
  | cons rep reps ih =>
    intro b
    obtain ⟨h1, h2, h3, h4, h5, h6, h7, h8⟩ := ih (applyRep b rep)
    refine ⟨h1, h2, h3, h4, h5, h6, h7, fun q => ?_⟩
    obtain ⟨hf, hc⟩ := h8 q
    constructor
    · exact hf.trans (by by_cases e : q = rep.1 <;> simp [applyRep, e])
    · exact hc.trans (by by_cases e : q = rep.1 <;> simp [applyRep, e])

theorem mapCompute_eq_computeRows (f : String → String) (b0 : Board) :
    mapCompute f b0 = computeRows f b0 b0.rows := rfl

theorem findLastRep_computeCols (f : String → String) (b0 : Board) (rr : Nat) :
    ∀ (m : Nat) (r c : Nat),
      findLastRep (computeCols f b0 rr m) (r, c) =
        if r = rr ∧ c < m then ((b0.cells (rr, c)).card).map f else none := by
  intro m
  induction m with
  | zero =>
    intro r c
    simp [computeCols, findLastRep]
  | succ m ih =>
    intro r c
    have hsplit : computeCols f b0 rr (m + 1) =
        computeCols f b0 rr m ++ List.filterMap (fun c =>
          match (b0.cells (rr, c)).card with
          | some card => some ((rr, c), f card)
          | none => none) [m] := by
      unfold computeCols
      rw [List.range_succ, List.filterMap_append]
    rw [hsplit, findLastRep_append]
    cases hcard : (b0.cells (rr, m)).card with
    | none =>
      have hnil : List.filterMap (fun c =>
          match (b0.cells (rr, c)).card with
          | some card => some ((rr, c), f card)
          | none => none) [m] = [] := by simp [hcard]
      rw [hnil]
      show findLastRep (computeCols f b0 rr m) (r, c) = _
      rw [ih]
      by_cases hr : r = rr
      · by_cases hc : c < m
        · have hc1 : c < m + 1 := Nat.lt_succ_of_lt hc
          simp [hr, hc, hc1]
        · by_cases hcm : c = m
          · subst hcm
            subst hr
            simp [hc, hcard]
          · have hc1 : ¬c < m + 1 := by omega
            simp [hc, hc1]
      · simp [hr]
    | some l =>
      have hone : List.filterMap (fun c =>
          match (b0.cells (rr, c)).card with
          | some card => some ((rr, c), f card)
          | none => none) [m] = [((rr, m), f l)] := by simp [hcard]
      rw [hone]
      have hsingle : findLastRep [((rr, m), f l)] (r, c) =
          if ((rr, m) : Pos) = (r, c) then some (f l) else none := rfl
      rw [hsingle]
      by_cases he : ((rr, m) : Pos) = (r, c)
      · obtain ⟨h1, h2⟩ := Prod.mk.injEq .. ▸ he
        subst h1
        subst h2
        simp [he, Nat.lt_succ_self, hcard]
      · rw [if_neg he]
        show findLastRep (computeCols f b0 rr m) (r, c) = _
        rw [ih]
        by_cases hr : r = rr
        · subst hr
          have hcm : c ≠ m := fun h => he (by rw [h])
          by_cases hc : c < m
          · have hc1 : c < m + 1 := Nat.lt_succ_of_lt hc
            simp [hc, hc1]
          · have hc1 : ¬c < m + 1 := by omega
            simp [hc, hc1]
        · simp [hr]

theorem findLastRep_computeRows (f : String → String) (b0 : Board) :
    ∀ (n : Nat) (r c : Nat),
      findLastRep (computeRows f b0 n) (r, c) =
        if r < n ∧ c < b0.cols then ((b0.cells (r, c)).card).map f else none := by
  intro n
  induction n with
  | zero =>
    intro r c
    simp [computeRows, findLastRep]
  | succ n ih =>
    intro r c
    have hsplit : computeRows f b0 (n + 1) =
        computeRows f b0 n ++ computeCols f b0 n b0.cols := by
      unfold computeRows
      rw [List.range_succ]
      simp
    rw [hsplit, findLastRep_append, findLastRep_computeCols]
    by_cases hr : r = n
    · subst hr
      by_cases hc : c < b0.cols
      · cases hcard : (b0.cells (r, c)).card with
        | none =>
          simp only [hc, and_true, if_pos rfl, hcard, Option.map_none']
          rw [ih]
          have hrn : ¬r < r := Nat.lt_irrefl r
          simp [hrn, hcard]
        | some l =>
          simp [hc, hcard, Nat.lt_succ_self]
      · rw [ih]
        simp [hc]
    · have hpiece : ¬(r = n ∧ c < b0.cols) := fun h => hr h.1
      rw [if_neg hpiece]
      show findLastRep (computeRows f b0 n) (r, c) = _
      rw [ih]
      have hiff : (r < n + 1 ∧ c < b0.cols) ↔ (r < n ∧ c < b0.cols) := by
        constructor
        · rintro ⟨h1, h2⟩
          exact ⟨by omega, h2⟩
        · rintro ⟨h1, h2⟩
          exact ⟨by omega, h2⟩
      by_cases hcase : r < n ∧ c < b0.cols
      · rw [if_pos hcase, if_pos (hiff.mpr hcase)]
      · rw [if_neg hcase, if_neg (fun h => hcase (hiff.mp h))]

/-- Counterexample to C4: the claim (and the spec) say a cell whose
label became absent between the compute and apply phases is skipped
and stays absent. The apply loop (board.ts lines 577-579) overwrites
every collected replacement unconditionally, so the removed card at
`(0,0)` is resurrected with label `"Z"`. -/
theorem map_apply_no_skip_counterexample :
    (bMap0.cells (0, 0)).card = some "A" ∧
    (bMap1.cells (0, 0)).card = none ∧
    ((mapOp (fun _ => "Z") bMap0 bMap1).cells (0, 0)).card = some "Z" :=
  ⟨by decide, rfl, by decide⟩

/-- C4 as amended: the apply phase changes only card labels — for
*every* cell whose label was present when `f` was applied to it in the
compute phase, the label is overwritten with `f`'s result, *including
cells whose label became absent between the two phases* (they are
resurrected rather than skipped); cells the compute phase did not list
keep their apply-time label; every cell's `face_up` and `controller`
state, every player record, the waiter queues, and the board
dimensions are unchanged by the apply phase; and exactly one change
event is emitted. -/
theorem map_apply_overwrites_all
    (f : String → String) (b0 b1 : Board) (r c : Nat) (l : String) (q : Pos)
    (hr : r < b0.rows) (hc : c < b0.cols)
    (hl : (b0.cells (r, c)).card = some l)
    (hq : ¬(q.1 < b0.rows ∧ q.2 < b0.cols) ∨ (b0.cells q).card = none) :
    ((mapOp f b0 b1).cells (r, c)).card = some (f l) ∧
    ((mapOp f b0 b1).cells q).card = (b1.cells q).card ∧
    (∀ p : Pos, ((mapOp f b0 b1).cells p).faceUp = (b1.cells p).faceUp ∧
      ((mapOp f b0 b1).cells p).controller = (b1.cells p).controller) ∧
    (mapOp f b0 b1).players = b1.players ∧
    (mapOp f b0 b1).waiters = b1.waiters ∧
    (mapOp f b0 b1).wokenWaiters = b1.wokenWaiters ∧
    (mapOp f b0 b1).rows = b1.rows ∧
    (mapOp f b0 b1).cols = b1.cols ∧
    (mapOp f b0 b1).changes = b1.changes + 1 := by
  obtain ⟨q1, q2⟩ := q
  obtain ⟨h1, h2, h3, h4, h5, h6, h7, h8⟩ := mapFold_frame (mapCompute f b0) b1
  refine ⟨?_, ?_, ?_, ?_, ?_, ?_, ?_, ?_, ?_⟩
  · rw [show mapOp f b0 b1 = mapApply (mapCompute f b0) b1 from rfl,
      mapApply_card, mapCompute_eq_computeRows, findLastRep_computeRows,
      if_pos ⟨hr, hc⟩, hl]
    rfl
  · rw [show mapOp f b0 b1 = mapApply (mapCompute f b0) b1 from rfl,
      mapApply_card, mapCompute_eq_computeRows]
    have hnone : findLastRep (computeRows f b0 b0.rows) (q1, q2) = none := by
      rw [findLastRep_computeRows]
      cases hq with
      | inl h => rw [if_neg h]
      | inr h =>
        by_cases hb : q1 < b0.rows ∧ q2 < b0.cols
        · rw [if_pos hb, h]
          rfl
        · rw [if_neg hb]
    rw [hnone]
  · exact fun p => h8 p
  · exact h1
  · exact h2
  · exact h3
  · exact h4
  · exact h5
  · exact congrArg (fun n => n + 1) h6

/-- Witness for the amended C4: compute on `bMap0`, apply on `bMap1`,
present cell `(0,0)`, and the out-of-range query cell `(5,5)`. -/
theorem map_apply_overwrites_all_witness :
    (0 < bMap0.rows ∧ 0 < bMap0.cols ∧
      (bMap0.cells (0, 0)).card = some "A" ∧
      (¬((5 : Nat) < bMap0.rows ∧ (5 : Nat) < bMap0.cols) ∨
        (bMap0.cells (5, 5)).card = none)) ∧
    (((mapOp (fun _ => "Z") bMap0 bMap1).cells (0, 0)).card = some "Z" ∧
      ((mapOp (fun _ => "Z") bMap0 bMap1).cells (5, 5)).card = (bMap1.cells (5, 5)).card ∧
      (∀ p : Pos, ((mapOp (fun _ => "Z") bMap0 bMap1).cells p).faceUp = (bMap1.cells p).faceUp ∧
        ((mapOp (fun _ => "Z") bMap0 bMap1).cells p).controller = (bMap1.cells p).controller) ∧
      (mapOp (fun _ => "Z") bMap0 bMap1).players = bMap1.players ∧
      (mapOp (fun _ => "Z") bMap0 bMap1).waiters = bMap1.waiters ∧
      (mapOp (fun _ => "Z") bMap0 bMap1).wokenWaiters = bMap1.wokenWaiters ∧
      (mapOp (fun _ => "Z") bMap0 bMap1).rows = bMap1.rows ∧
      (mapOp (fun _ => "Z") bMap0 bMap1).cols = bMap1.cols ∧
      (mapOp (fun _ => "Z") bMap0 bMap1).changes = bMap1.changes + 1) :=
  ⟨⟨by decide, by decide, by decide, by decide⟩,
    map_apply_overwrites_all (fun _ => "Z") bMap0 bMap1 0 0 "A" (5, 5)
      (by decide) (by decide) (by decide) (by decide)⟩

/-! ### Board-file parsing (C9) -/
theorem takeWhile_all_append {p : Char → Bool} (a : List Char) (y : Char) (b : List Char)
    (ha : ∀ ch ∈ a, p ch = true) (hy : p y = false) :
    (a ++ y :: b).takeWhile p = a ∧ (a ++ y :: b).dropWhile p = y :: b := by
  induction a with
  | nil => simp [List.takeWhile_cons, List.dropWhile_cons, hy]
  | cons ch a ih =>
    have hch : p ch = true := ha ch (by simp)
    obtain ⟨h1, h2⟩ := ih (fun c hc => ha c (by simp [hc]))
    simp [List.takeWhile_cons, List.dropWhile_cons, hch, h1, h2]

/-- The header regex `^(\d+)x(\d+)$` matches exactly the strings that
decompose as nonempty digits, `'x'`, nonempty digits, and the captured
values are the digit groups' numeric values. -/
theorem parseHeader_eq_some_iff (l : List Char) (m n : Nat) :
    parseHeader l = some (m, n) ↔
      ∃ a b : List Char, l = a ++ 'x' :: b ∧ a ≠ [] ∧
        (∀ ch ∈ a, ch.isDigit = true) ∧ b ≠ [] ∧ (∀ ch ∈ b, ch.isDigit = true) ∧
        m = natOfDigits a ∧ n = natOfDigits b := by
  constructor
  · intro h
    unfold parseHeader at h
    cases hdrop : l.dropWhile Char.isDigit with
    | nil => rw [hdrop] at h; exact absurd h (by simp)
    | cons y rest =>
      rw [hdrop] at h
      have h2 : (if y = 'x' ∧ l.takeWhile Char.isDigit ≠ [] ∧ rest ≠ [] ∧
          rest.all Char.isDigit then
          some (natOfDigits (l.takeWhile Char.isDigit), natOfDigits rest)
        else none) = some (m, n) := h
      by_cases hcond : y = 'x' ∧ l.takeWhile Char.isDigit ≠ [] ∧ rest ≠ [] ∧
          rest.all Char.isDigit
      · rw [if_pos hcond] at h2
        injection h2 with h2
        obtain ⟨hm, hn⟩ := Prod.mk.injEq .. ▸ h2.symm
        refine ⟨l.takeWhile Char.isDigit, rest, ?_, hcond.2.1, ?_, hcond.2.2.1, ?_, hm, hn⟩
        · rw [← hcond.1, ← hdrop, List.takeWhile_append_dropWhile]
        · exact fun ch hch => List.mem_takeWhile_imp hch
        · exact List.all_eq_true.mp hcond.2.2.2
      · rw [if_neg hcond] at h2
        exact absurd h2 (by simp)
  · rintro ⟨a, b, hl, ha, hda, hb, hdb, hm, hn⟩
    have hx : Char.isDigit 'x' = false := by decide
    obtain ⟨htake, hdrop⟩ := takeWhile_all_append a 'x' b hda hx
    unfold parseHeader
    rw [hl, hdrop, htake]
    show (if ('x' : Char) = 'x' ∧ a ≠ [] ∧ b ≠ [] ∧ b.all Char.isDigit then
        some (natOfDigits a, natOfDigits b)
      else none) = some (m, n)
    rw [if_pos ⟨rfl, ha, hb, List.all_eq_true.mpr hdb⟩, hm, hn]

/-- Counterexample to C9: the claim (and the spec) require the header
to carry *positive* integers, but the regex `^(\d+)x(\d+)$` together
with `parseInt` accepts `"0x0"`, so parsing the file `"0x0"` succeeds
with a 0x0 board instead of failing with a parse error. -/
theorem parse_positive_counterexample :
    parseFromFile "0x0" = .ok ⟨0, 0, []⟩ ∧
    ¬specWellFormedPos "0x0" ⟨0, 0, []⟩ :=
  ⟨rfl, fun h => absurd h.2.1 (by decide)⟩

/-- C9 as amended: `parseFromFile` succeeds exactly when the first
non-blank line trims to `"<rows>x<cols>"` with (possibly zero)
natural-number groups and the remaining non-blank lines are exactly
`rows × cols` lines, producing the board dimensions and the trimmed,
non-empty labels in row-major order; any other content is rejected
with a parse error. -/
theorem parseFromFile_ok_iff (text : String) (pb : ParsedBoard) :
    parseFromFile text = .ok pb ↔ specWellFormed text pb := by
  constructor
  · intro h
    unfold parseFromFile at h
    cases hnb : nonBlankLines text with
    | nil => rw [hnb] at h; exact absurd h (by simp)
    | cons first rest =>
      rw [hnb] at h
      have h1 : parseBody first rest = .ok pb := h
      unfold parseBody at h1
      cases hph : parseHeader (trimChars first) with
      | none => rw [hph] at h1; exact absurd h1 (by simp)
      | some rc =>
        obtain ⟨rows, cols⟩ := rc
        rw [hph] at h1
        have h2 : (if rest.length = rows * cols then
            (.ok ⟨rows, cols, rest.map (fun l => (trimChars l).asString)⟩ :
              Except String ParsedBoard)
          else .error "wrong number of card lines") = .ok pb := h1
        by_cases hlen : rest.length = rows * cols
        · rw [if_pos hlen] at h2
          injection h2 with h2
          obtain ⟨a, bb, hdec, ha, hda, hb, hdb, hm, hn⟩ :=
            (parseHeader_eq_some_iff (trimChars first) rows cols).mp hph
          refine ⟨first, rest, hnb, ⟨a, bb, hdec, ha, hda, hb, hdb, ?_, ?_⟩, ?_, ?_, ?_⟩
          · rw [← h2]; exact hm
          · rw [← h2]; exact hn
          · rw [← h2]; exact hlen
          · rw [← h2]
          · intro s hs
            rw [← h2] at hs
            simp only [List.mem_map] at hs
            obtain ⟨lc, hlc, hs⟩ := hs
            have hmem : lc ∈ nonBlankLines text := by
              rw [hnb]; exact List.mem_cons_of_mem first hlc
            have htrim : trimChars lc ≠ [] := by
              have := (List.mem_filter.mp hmem).2
              simpa using this
            rw [← hs]
            intro hc
            exact htrim (congrArg String.data hc)
        · rw [if_neg hlen] at h2
          exact absurd h2 (by simp)
  · rintro ⟨first, rest, hnb, ⟨a, bb, hdec, ha, hda, hb, hdb, hm, hn⟩, hlen, hcards, hne⟩
    have hph : parseHeader (trimChars first) = some (pb.rows, pb.cols) :=
      (parseHeader_eq_some_iff (trimChars first) pb.rows pb.cols).mpr
        ⟨a, bb, hdec, ha, hda, hb, hdb, hm, hn⟩
    unfold parseFromFile
    rw [hnb]
    show parseBody first rest = .ok pb
    unfold parseBody
    rw [hph]
    show (if rest.length = pb.rows * pb.cols then
        (.ok ⟨pb.rows, pb.cols, rest.map (fun l => (trimChars l).asString)⟩ :
          Except String ParsedBoard)
      else .error "wrong number of card lines") = .ok pb
    rw [if_pos hlen, ← hcards]

end MS
